import Mathlib

/-!
Verification of the marker-based sync core of the echo-obsidian-plugin.

Document text is modelled as `List Char`.  JavaScript string primitives used
by the plugin (`includes`, `indexOf`, `substring`, `trimEnd`, regex matching
against the fixed marker patterns) are given explicit executable definitions
below, and the reconciliation routines (`DailyNoteManager.appendToSection`,
`DailyNoteManager.replaceTodoSection`, `DailyNoteManager.getOrCreateDailyNote`
path derivation, `TodoSync.sync`, `TodoSync.writeTodosToDaily`,
`SyncEngine.sync`) are translated from the TypeScript sources.
-/

namespace Echo

/-- The characters of a string literal, the form in which all document text
is handled here. -/
def lit (s : String) : List Char := s.toList

/-- JavaScript `trimEnd` (trailing-whitespace removal) on document text. -/
def trimEnd (l : List Char) : List Char :=
  (l.reverse.dropWhile Char.isWhitespace).reverse

/-- JavaScript `trim` (both ends). -/
def trimStr (l : List Char) : List Char :=
  trimEnd (l.dropWhile Char.isWhitespace)

/-- JavaScript `String.prototype.indexOf` of a pattern, as an optional first
match position (`none` models the `-1` result). -/
def indexOfSub (p : List Char) : List Char → Option Nat
  | [] => if p = [] then some 0 else none
  | c :: rest =>
    if p <+: c :: rest then some 0
    else (indexOfSub p rest).map (· + 1)

/-- Number of occurrences of a pattern inside a text: the number of
positions at which the pattern starts. -/
def countOcc (p : List Char) : List Char → Nat
  | [] => 0
  | c :: rest => (if p <+: c :: rest then 1 else 0) + countOcc p rest

/-- `#📼 ?` allows one optional space between the emoji and the digits. -/
def stripOneSpace : List Char → List Char
  | [] => []
  | c :: t => if c = ' ' then t else c :: t

/-- Match of the regex `#📼 ?(\d+)` at the start of the text only; returns
the captured digit run. -/
def matchCompactAt : List Char → Option (List Char)
  | c1 :: c2 :: r =>
    if c1 = '#' ∧ c2 = '📼' then
      if ((stripOneSpace r).takeWhile Char.isDigit).isEmpty then none
      else some ((stripOneSpace r).takeWhile Char.isDigit)
    else none
  | _ => none

/-- `text.match(/#📼 ?(\d+)/)`: first match of the compact capture marker,
returning the captured id digits. -/
def matchCompact : List Char → Option (List Char)
  | [] => none
  | c :: rest =>
    match matchCompactAt (c :: rest) with
    | some ds => some ds
    | none => matchCompact rest

/-- Match of the regex `<!-- echo-id:(\d+) -->` at the start of the text
only; returns the captured digit run. -/
def matchLegacyAt (l : List Char) : Option (List Char) :=
  if lit "<!-- echo-id:" <+: l then
    if (((l.drop 13).takeWhile Char.isDigit)).isEmpty then none
    else if lit " -->" <+: (l.drop 13).drop ((l.drop 13).takeWhile Char.isDigit).length
      then some ((l.drop 13).takeWhile Char.isDigit)
    else none
  else none

/-- `text.match(/<!-- echo-id:(\d+) -->/)`: first match of the legacy
capture marker, returning the captured id digits. -/
def matchLegacy : List Char → Option (List Char)
  | [] => none
  | c :: rest =>
    match matchLegacyAt (c :: rest) with
    | some ds => some ds
    | none => matchLegacy rest

/-- `newMarker?.[1] || oldMarker?.[1]` from `appendToSection`: the marker id
carried by a fragment, in either format (the compact format takes
precedence, as in the source). -/
def extractMarkerId (entry : List Char) : Option (List Char) :=
  (matchCompact entry).orElse fun _ => matchLegacy entry

/-- The three document texts whose presence `appendToSection` treats as
"id already synced": `#📼 N`, `#📼N` and `<!-- echo-id:N -->`. -/
def spacedForm (ds : List Char) : List Char := lit "#📼 " ++ ds
def tightForm (ds : List Char) : List Char := lit "#📼" ++ ds
def legacyForm (ds : List Char) : List Char := lit "<!-- echo-id:" ++ ds ++ lit " -->"

/-- The dedup test of `appendToSection` line 81: the id is present anywhere
in the document in either marker format. -/
def markerPresent (ds content : List Char) : Prop :=
  spacedForm ds <:+: content ∨ tightForm ds <:+: content ∨ legacyForm ds <:+: content

instance (ds content : List Char) : Decidable (markerPresent ds content) := by
  unfold markerPresent; infer_instance

/-- Test of the regex `\n(#{1,4} )` at the start of the text: a newline,
one to four `#` characters, then a space. -/
def boundaryAt : List Char → Bool
  | '\n' :: rest =>
    let hs := rest.takeWhile (fun c => c = '#')
    decide (1 ≤ hs.length) && decide (hs.length ≤ 4) &&
      (match rest.drop hs.length with
       | ' ' :: _ => true
       | _ => false)
  | _ => false

/-- `rest.match(/\n(#{1,4} )/)?.index`: position of the next section header
boundary. -/
def findBoundary : List Char → Option Nat
  | [] => none
  | c :: rest =>
    if boundaryAt (c :: rest) then some 0
    else (findBoundary rest).map (· + 1)

/-- Section end boundary used by `appendToSection` / `replaceTodoSection`:
offset of the next header line after `afterHeader`, or end of document. -/
def sectionEndFrom (content : List Char) (afterHeader : Nat) : Nat :=
  match findBoundary (content.drop afterHeader) with
  | some j => afterHeader + j
  | none => content.length

/-- The insertion path of `DailyNoteManager.appendToSection` (lines 85-116),
reached when the dedup check did not fire. -/
def insertIntoSection (content entry header : List Char) : List Char :=
  match indexOfSub header content with
  | none => trimEnd content ++ lit "\n\n" ++ header ++ lit "\n\n" ++ entry ++ lit "\n"
  | some i =>
    let afterHeader := i + header.length
    let insertPos := sectionEndFrom content afterHeader
    trimEnd (content.take insertPos) ++ lit "\n\n" ++ entry ++ lit "\n" ++ content.drop insertPos

/-- `DailyNoteManager.appendToSection` (part_003 lines 74-117) as a function
of the document text: the returned text is the file content after the call. -/
def appendToSection (content entry header : List Char) : List Char :=
  match extractMarkerId entry with
  | some ds =>
    if markerPresent ds content then content
    else insertIntoSection content entry header
  | none => insertIntoSection content entry header

/-- Combined occurrence count of an id's marker, over the three recognized
marker texts. -/
def occCount (ds content : List Char) : Nat :=
  countOcc (spacedForm ds) content + countOcc (tightForm ds) content +
    countOcc (legacyForm ds) content

example : matchCompact (lit "x #📼 42 y") = some (lit "42") := by decide
example : matchCompact (lit "x #📼42") = some (lit "42") := by decide
example : matchCompact (lit "#📼 x7") = none := by decide
example : matchLegacy (lit "a <!-- echo-id:7 --> b") = some (lit "7") := by decide
example : matchLegacy (lit "<!-- echo-id:7x -->") = none := by decide
example : extractMarkerId (lit "- hi\n#📼 42") = some (lit "42") := by decide
example : findBoundary (lit "abc\n#### X") = some 3 := by decide
example : findBoundary (lit "abc\n##### X") = none := by decide
example : countOcc (lit "aa") (lit "aaa") = 2 := by decide
example :
    appendToSection (lit "# T\n\n#### H\n\n#### B\n") (lit "e\n#📼 4") (lit "#### H")
      = lit "# T\n\n#### H\n\ne\n#📼 4\n\n#### B\n" := by decide
example :
    appendToSection (lit "x #📼 421 y") (lit "e\n#📼 42") (lit "#### H")
      = lit "x #📼 421 y" := by decide

/-! ### Counting occurrences -/

lemma lit_spaced : lit "#📼 " = ['#', '📼', ' '] := by decide

lemma lit_tight : lit "#📼" = ['#', '📼'] := by decide

lemma lit_legacyOpen : lit "<!-- echo-id:" =
    ['<', '!', '-', '-', ' ', 'e', 'c', 'h', 'o', '-', 'i', 'd', ':'] := by decide

lemma lit_legacyClose : lit " -->" = [' ', '-', '-', '>'] := by decide

lemma lit_nn : lit "\n\n" = ['\n', '\n'] := by decide

lemma lit_n : lit "\n" = ['\n'] := by decide

lemma pre_of_pre_sep {c : Char} {b : List Char} :
    ∀ {p a : List Char}, c ∉ p → p <+: a ++ c :: b → p <+: a := by
  intro p a
  induction a generalizing p with
  | nil =>
    intro hc h
    match p, h with
    | [], _ => exact List.nil_prefix
    | q :: qs, h =>
      exfalso
      rw [List.nil_append] at h
      rcases List.cons_prefix_cons.1 h with ⟨rfl, -⟩
      exact hc (List.mem_cons_self q qs)
  | cons x a' ih =>
    intro hc h
    match p, h with
    | [], _ => exact List.nil_prefix
    | q :: qs, h =>
      rw [List.cons_append] at h
      rcases List.cons_prefix_cons.1 h with ⟨rfl, hrest⟩
      have hc' : c ∉ qs := fun hm => hc (List.mem_cons_of_mem _ hm)
      exact List.cons_prefix_cons.2 ⟨rfl, ih hc' hrest⟩

lemma countOcc_cons_not {p : List Char} {c : Char} (hp : p ≠ []) (hc : c ∉ p)
    (l : List Char) : countOcc p (c :: l) = countOcc p l := by
  show (if p <+: c :: l then 1 else 0) + countOcc p l = countOcc p l
  rw [if_neg, Nat.zero_add]
  intro h
  match p, h with
  | [], _ => exact hp rfl
  | q :: qs, h =>
    rcases List.cons_prefix_cons.1 h with ⟨rfl, -⟩
    exact hc (List.mem_cons_self q qs)

lemma countOcc_sep {p : List Char} {c : Char} (hp : p ≠ []) (hc : c ∉ p) :
    ∀ (a b : List Char), countOcc p (a ++ c :: b) = countOcc p a + countOcc p b
  | [], b => by
    rw [List.nil_append, countOcc_cons_not hp hc]
    simp [countOcc]
  | x :: a', b => by
    rw [List.cons_append]
    show (if p <+: x :: (a' ++ c :: b) then 1 else 0) + countOcc p (a' ++ c :: b) =
      ((if p <+: x :: a' then 1 else 0) + countOcc p a') + countOcc p b
    have hiff : (p <+: x :: (a' ++ c :: b)) ↔ (p <+: x :: a') := by
      constructor
      · intro h
        have h' : p <+: (x :: a') ++ c :: b := by rwa [List.cons_append]
        exact pre_of_pre_sep hc h'
      · intro h
        have h' := h.trans (List.prefix_append (x :: a') (c :: b))
        rwa [List.cons_append] at h'
    rw [if_congr hiff rfl rfl, countOcc_sep hp hc a' b]
    omega

lemma countOcc_zero {p : List Char} (hp : p ≠ []) :
    ∀ l, countOcc p l = 0 ↔ ¬ p <:+: l
  | [] => by
    simp only [countOcc, List.infix_nil]
    simpa using hp
  | c :: l => by
    show (if p <+: c :: l then 1 else 0) + countOcc p l = 0 ↔ ¬ p <:+: c :: l
    rw [List.infix_cons_iff]
    by_cases h : p <+: c :: l
    · simp [h]
    · simp [h, countOcc_zero hp l]

lemma countOcc_zero_of_le {p l m : List Char} (hp : p ≠ []) (hlm : l <:+: m)
    (hm : countOcc p m = 0) : countOcc p l = 0 := by
  rw [countOcc_zero hp] at hm ⊢
  exact fun h => hm (h.trans hlm)

lemma trimEnd_pre (l : List Char) : trimEnd l <+: l := by
  have h : l.reverse.dropWhile Char.isWhitespace <:+ l.reverse :=
    List.dropWhile_suffix Char.isWhitespace
  have h2 := List.reverse_prefix.2 h
  rw [List.reverse_reverse] at h2
  exact h2

/-! ### Facts about the marker forms -/

lemma spacedForm_ne (ds : List Char) : spacedForm ds ≠ [] := by
  simp [spacedForm, lit_spaced]

lemma tightForm_ne (ds : List Char) : tightForm ds ≠ [] := by
  simp [tightForm, lit_tight]

lemma legacyForm_ne (ds : List Char) : legacyForm ds ≠ [] := by
  simp [legacyForm, lit_legacyOpen]

lemma nwl_spaced {ds : List Char} (hds : ∀ c ∈ ds, c.isDigit) :
    '\n' ∉ spacedForm ds := by
  intro h
  rw [spacedForm, lit_spaced] at h
  rcases List.mem_append.1 h with h1 | h2
  · exact absurd h1 (by decide)
  · exact absurd (hds _ h2) (by decide)

lemma nwl_tight {ds : List Char} (hds : ∀ c ∈ ds, c.isDigit) :
    '\n' ∉ tightForm ds := by
  intro h
  rw [tightForm, lit_tight] at h
  rcases List.mem_append.1 h with h1 | h2
  · exact absurd h1 (by decide)
  · exact absurd (hds _ h2) (by decide)

lemma nwl_legacy {ds : List Char} (hds : ∀ c ∈ ds, c.isDigit) :
    '\n' ∉ legacyForm ds := by
  intro h
  rw [legacyForm, lit_legacyOpen, lit_legacyClose] at h
  rcases List.mem_append.1 h with h1 | h2
  · rcases List.mem_append.1 h1 with h3 | h4
    · exact absurd h3 (by decide)
    · exact absurd (hds _ h4) (by decide)
  · exact absurd h2 (by decide)

/-! ### What a successful marker extraction tells about the fragment -/

lemma stripOneSpace_cases (r : List Char) :
    r = ' ' :: stripOneSpace r ∨ stripOneSpace r = r := by
  cases r with
  | nil => exact Or.inr rfl
  | cons c t =>
    by_cases hc : c = ' '
    · subst hc
      exact Or.inl (by simp [stripOneSpace])
    · exact Or.inr (by simp [stripOneSpace, hc])

lemma matchCompactAt_some {l ds : List Char} (h : matchCompactAt l = some ds) :
    (spacedForm ds <+: l ∨ tightForm ds <+: l) ∧ ds ≠ [] ∧ ∀ c ∈ ds, c.isDigit := by
  match l with
  | [] => simp [matchCompactAt] at h
  | [c1] => simp [matchCompactAt] at h
  | c1 :: c2 :: r =>
    rw [matchCompactAt] at h
    by_cases h12 : c1 = '#' ∧ c2 = '📼'
    · rw [if_pos h12] at h
      by_cases hemp : ((stripOneSpace r).takeWhile Char.isDigit).isEmpty
      · rw [if_pos hemp] at h
        exact absurd h (by simp)
      · rw [if_neg hemp] at h
        obtain ⟨rfl, rfl⟩ := h12
        obtain rfl := Option.some.inj h
        refine ⟨?_, by simpa using hemp, fun c hm => List.mem_takeWhile_imp hm⟩
        rcases stripOneSpace_cases r with hr | hr
        · left
          rw [spacedForm, lit_spaced]
          refine ⟨(stripOneSpace r).dropWhile Char.isDigit, ?_⟩
          conv_rhs => rw [hr]
          simp [List.append_assoc, List.takeWhile_append_dropWhile]
        · right
          rw [tightForm, lit_tight]
          refine ⟨(stripOneSpace r).dropWhile Char.isDigit, ?_⟩
          conv_rhs => rw [← hr]
          simp [List.append_assoc, List.takeWhile_append_dropWhile]
    · rw [if_neg h12] at h
      exact absurd h (by simp)

lemma matchCompact_some {ds : List Char} :
    ∀ {entry : List Char}, matchCompact entry = some ds →
      (spacedForm ds <:+: entry ∨ tightForm ds <:+: entry) ∧ ds ≠ [] ∧
        ∀ c ∈ ds, c.isDigit := by
  intro entry
  induction entry with
  | nil => intro h; simp [matchCompact] at h
  | cons c rest ih =>
    intro h
    rw [matchCompact] at h
    cases hA : matchCompactAt (c :: rest) with
    | some ds' =>
      rw [hA] at h
      obtain rfl : ds' = ds := Option.some.inj h
      obtain ⟨hf, hne, hdig⟩ := matchCompactAt_some hA
      exact ⟨hf.imp List.IsPrefix.isInfix List.IsPrefix.isInfix, hne, hdig⟩
    | none =>
      rw [hA] at h
      obtain ⟨hf, hne, hdig⟩ := ih h
      exact ⟨hf.imp List.infix_cons List.infix_cons, hne, hdig⟩

lemma matchLegacyAt_some {l ds : List Char} (h : matchLegacyAt l = some ds) :
    legacyForm ds <+: l ∧ ds ≠ [] ∧ ∀ c ∈ ds, c.isDigit := by
  rw [matchLegacyAt] at h
  by_cases hopen : lit "<!-- echo-id:" <+: l
  · rw [if_pos hopen] at h
    by_cases hemp : ((l.drop 13).takeWhile Char.isDigit).isEmpty
    · rw [if_pos hemp] at h
      exact absurd h (by simp)
    · rw [if_neg hemp] at h
      by_cases hclose :
          lit " -->" <+: (l.drop 13).drop ((l.drop 13).takeWhile Char.isDigit).length
      · rw [if_pos hclose] at h
        obtain rfl := Option.some.inj h
        refine ⟨?_, by simpa using hemp, fun c hm => List.mem_takeWhile_imp hm⟩
        obtain ⟨t, ht⟩ := hopen
        have hdrop : l.drop 13 = t := by
          have h13 : (lit "<!-- echo-id:").length = 13 := by decide
          rw [← ht, ← h13, List.drop_left]
        rw [hdrop] at hclose ⊢
        obtain ⟨u, hu⟩ := hclose
        have htake : t.take ((t.takeWhile Char.isDigit).length) = t.takeWhile Char.isDigit :=
          ( List.prefix_iff_eq_take.1 (List.takeWhile_prefix _)).symm
        have hsplit : t = t.takeWhile Char.isDigit ++ (lit " -->" ++ u) := by
          conv_lhs => rw [← List.take_append_drop ((t.takeWhile Char.isDigit).length) t]
          rw [htake, ← hu]
        refine ⟨u, ?_⟩
        rw [legacyForm, ← ht]
        conv_rhs => rw [hsplit]
        simp [List.append_assoc]
      · rw [if_neg hclose] at h
        exact absurd h (by simp)
  · rw [if_neg hopen] at h
    exact absurd h (by simp)

lemma matchLegacy_some {ds : List Char} :
    ∀ {entry : List Char}, matchLegacy entry = some ds →
      legacyForm ds <:+: entry ∧ ds ≠ [] ∧ ∀ c ∈ ds, c.isDigit := by
  intro entry
  induction entry with
  | nil => intro h; simp [matchLegacy] at h
  | cons c rest ih =>
    intro h
    rw [matchLegacy] at h
    cases hA : matchLegacyAt (c :: rest) with
    | some ds' =>
      rw [hA] at h
      obtain rfl : ds' = ds := Option.some.inj h
      obtain ⟨hf, hne, hdig⟩ := matchLegacyAt_some hA
      exact ⟨hf.isInfix, hne, hdig⟩
    | none =>
      rw [hA] at h
      obtain ⟨hf, hne, hdig⟩ := ih h
      exact ⟨List.infix_cons hf, hne, hdig⟩

lemma extractMarkerId_some {entry ds : List Char}
    (h : extractMarkerId entry = some ds) :
    (spacedForm ds <:+: entry ∨ tightForm ds <:+: entry ∨ legacyForm ds <:+: entry) ∧
      ds ≠ [] ∧ ∀ c ∈ ds, c.isDigit := by
  unfold extractMarkerId at h
  cases hC : matchCompact entry with
  | some d =>
    rw [hC] at h
    simp only [Option.orElse] at h
    obtain rfl : d = ds := Option.some.inj h
    obtain ⟨hf, hne, hdig⟩ := matchCompact_some hC
    exact ⟨hf.imp id Or.inl, hne, hdig⟩
  | none =>
    rw [hC] at h
    simp only [Option.orElse] at h
    obtain ⟨hf, hne, hdig⟩ := matchLegacy_some h
    exact ⟨Or.inr (Or.inr hf), hne, hdig⟩

/-! ### occCount over the splice produced by an insertion -/

lemma occCount_zero_parts {ds content : List Char} (h : occCount ds content = 0) :
    countOcc (spacedForm ds) content = 0 ∧ countOcc (tightForm ds) content = 0 ∧
      countOcc (legacyForm ds) content = 0 := by
  unfold occCount at h
  omega

lemma not_markerPresent {ds content : List Char} (h0 : occCount ds content = 0) :
    ¬ markerPresent ds content := by
  obtain ⟨h1, h2, h3⟩ := occCount_zero_parts h0
  rw [markerPresent]
  push_neg
  exact ⟨(countOcc_zero (spacedForm_ne ds) _).1 h1,
    (countOcc_zero (tightForm_ne ds) _).1 h2,
    (countOcc_zero (legacyForm_ne ds) _).1 h3⟩

lemma occCount_zero_of_le {ds l m : List Char} (hlm : l <:+: m)
    (hm : occCount ds m = 0) : occCount ds l = 0 := by
  obtain ⟨h1, h2, h3⟩ := occCount_zero_parts hm
  unfold occCount
  rw [countOcc_zero_of_le (spacedForm_ne ds) hlm h1,
    countOcc_zero_of_le (tightForm_ne ds) hlm h2,
    countOcc_zero_of_le (legacyForm_ne ds) hlm h3]

lemma countOcc_splice {p : List Char} (hp : p ≠ []) (hn : '\n' ∉ p)
    (a e b : List Char) :
    countOcc p (a ++ lit "\n\n" ++ e ++ lit "\n" ++ b) =
      countOcc p a + countOcc p e + countOcc p b := by
  have e1 : a ++ lit "\n\n" ++ e ++ lit "\n" ++ b =
      a ++ '\n' :: ('\n' :: (e ++ '\n' :: b)) := by
    rw [lit_nn, lit_n]; simp
  rw [e1, countOcc_sep hp hn a ('\n' :: (e ++ '\n' :: b)),
    countOcc_cons_not hp hn, countOcc_sep hp hn e b]
  omega

lemma countOcc_spliceEnd {p : List Char} (hp : p ≠ []) (hn : '\n' ∉ p)
    (a hdr e : List Char) :
    countOcc p (a ++ lit "\n\n" ++ hdr ++ lit "\n\n" ++ e ++ lit "\n") =
      countOcc p a + countOcc p hdr + countOcc p e := by
  have e1 : a ++ lit "\n\n" ++ hdr ++ lit "\n\n" ++ e ++ lit "\n" =
      a ++ '\n' :: ('\n' :: (hdr ++ '\n' :: ('\n' :: (e ++ '\n' :: [])))) := by
    rw [lit_nn, lit_n]; simp
  rw [e1, countOcc_sep hp hn a ('\n' :: (hdr ++ '\n' :: ('\n' :: (e ++ '\n' :: [])))),
    countOcc_cons_not hp hn,
    countOcc_sep hp hn hdr ('\n' :: (e ++ '\n' :: [])),
    countOcc_cons_not hp hn, countOcc_sep hp hn e []]
  show countOcc p a + (countOcc p hdr + (countOcc p e + countOcc p [])) = _
  rw [show countOcc p [] = 0 from rfl]
  omega

lemma occCount_splice {ds : List Char} (hds : ∀ c ∈ ds, c.isDigit)
    (a e b : List Char) :
    occCount ds (a ++ lit "\n\n" ++ e ++ lit "\n" ++ b) =
      occCount ds a + occCount ds e + occCount ds b := by
  unfold occCount
  rw [countOcc_splice (spacedForm_ne ds) (nwl_spaced hds) a e b,
    countOcc_splice (tightForm_ne ds) (nwl_tight hds) a e b,
    countOcc_splice (legacyForm_ne ds) (nwl_legacy hds) a e b]
  omega

lemma occCount_spliceEnd {ds : List Char} (hds : ∀ c ∈ ds, c.isDigit)
    (a hdr e : List Char) :
    occCount ds (a ++ lit "\n\n" ++ hdr ++ lit "\n\n" ++ e ++ lit "\n") =
      occCount ds a + occCount ds hdr + occCount ds e := by
  unfold occCount
  rw [countOcc_spliceEnd (spacedForm_ne ds) (nwl_spaced hds) a hdr e,
    countOcc_spliceEnd (tightForm_ne ds) (nwl_tight hds) a hdr e,
    countOcc_spliceEnd (legacyForm_ne ds) (nwl_legacy hds) a hdr e]
  omega

/-! ### Claims about `appendToSection` -/

lemma entry_in_insert (content entry header : List Char) :
    entry <:+: insertIntoSection content entry header := by
  unfold insertIntoSection
  cases hidx : indexOfSub header content with
  | none =>
    exact ⟨trimEnd content ++ lit "\n\n" ++ header ++ lit "\n\n", lit "\n",
      by simp [List.append_assoc]⟩
  | some i =>
    exact ⟨trimEnd (content.take (sectionEndFrom content (i + header.length))) ++ lit "\n\n",
      lit "\n" ++ content.drop (sectionEndFrom content (i + header.length)),
      by simp [List.append_assoc]⟩

lemma markerPresent_of_entry_in {ds entry m : List Char}
    (hforms : spacedForm ds <:+: entry ∨ tightForm ds <:+: entry ∨
      legacyForm ds <:+: entry)
    (hin : entry <:+: m) : markerPresent ds m := by
  rcases hforms with hf | hf | hf
  · exact Or.inl (hf.trans hin)
  · exact Or.inr (Or.inl (hf.trans hin))
  · exact Or.inr (Or.inr (hf.trans hin))

/-- **C1.** Idempotent append: starting from a document free of id `ds`'s
marker, appending a fragment that carries the marker exactly once leaves
exactly one occurrence of the marker, and a second append of the same
fragment detects the id and returns the document unmutated. -/
theorem append_same_fragment_idempotent
    (content entry header ds : List Char)
    (hid : extractMarkerId entry = some ds)
    (h0 : occCount ds content = 0)
    (h1 : occCount ds entry = 1)
    (hh : occCount ds header = 0) :
    occCount ds (appendToSection content entry header) = 1 ∧
      appendToSection (appendToSection content entry header) entry header =
        appendToSection content entry header := by
  obtain ⟨hforms, hne, hdig⟩ := extractMarkerId_some hid
  have happ : appendToSection content entry header =
      insertIntoSection content entry header := by
    unfold appendToSection
    rw [hid]
    show (if markerPresent ds content then content
      else insertIntoSection content entry header) = _
    rw [if_neg (not_markerPresent h0)]
  have hcount : occCount ds (insertIntoSection content entry header) = 1 := by
    unfold insertIntoSection
    cases hidx : indexOfSub header content with
    | none =>
      rw [occCount_spliceEnd hdig]
      have htc : occCount ds (trimEnd content) = 0 :=
        occCount_zero_of_le (trimEnd_pre content).isInfix h0
      rw [htc, hh, h1]
    | some i =>
      rw [occCount_splice hdig]
      have hb : occCount ds
          (trimEnd (content.take (sectionEndFrom content (i + header.length)))) = 0 :=
        occCount_zero_of_le
          ((trimEnd_pre _).trans ( List.take_prefix _ _)).isInfix h0
      have ha : occCount ds (content.drop (sectionEndFrom content (i + header.length))) = 0 :=
        occCount_zero_of_le (List.drop_suffix _ _).isInfix h0
      rw [hb, ha, h1]
  have hpart2 : appendToSection (insertIntoSection content entry header) entry header =
      insertIntoSection content entry header := by
    unfold appendToSection
    rw [hid]
    show (if markerPresent ds (insertIntoSection content entry header) then
        insertIntoSection content entry header
      else insertIntoSection (insertIntoSection content entry header) entry header) = _
    rw [if_pos (markerPresent_of_entry_in hforms (entry_in_insert content entry header))]
  rw [happ]
  exact ⟨hcount, hpart2⟩

/-- The spec scenario fragment: capture 42, "Buy milk", rendered by the
Capture Formatter. -/
def sampleEntry : List Char := lit "- **14:30** Buy milk\n#📼 42"

/-- A freshly templated daily note (capture section, automation section). -/
def sampleDoc : List Char := lit "# 2025-01-01\n\n#### 🧠\n\n#### 🤖\n"

/-- The default capture-section header `#### 🧠`. -/
def brainHeader : List Char := lit "#### 🧠"

/-- Witness for `append_same_fragment_idempotent`: the spec scenario
(capture 42, "Buy milk") against a freshly templated daily note. -/
theorem append_same_fragment_idempotent_witness :
    extractMarkerId sampleEntry = some (lit "42") ∧
      occCount (lit "42") sampleDoc = 0 ∧
      occCount (lit "42") sampleEntry = 1 ∧
      occCount (lit "42") brainHeader = 0 ∧
      occCount (lit "42") (appendToSection sampleDoc sampleEntry brainHeader) = 1 ∧
      appendToSection (appendToSection sampleDoc sampleEntry brainHeader)
          sampleEntry brainHeader =
        appendToSection sampleDoc sampleEntry brainHeader :=
  ⟨by decide, by decide, by decide, by decide,
    (append_same_fragment_idempotent sampleDoc sampleEntry brainHeader (lit "42")
      (by decide) (by decide) (by decide) (by decide)).1,
    (append_same_fragment_idempotent sampleDoc sampleEntry brainHeader (lit "42")
      (by decide) (by decide) (by decide) (by decide)).2⟩

/-- **C8.** Marker backward compatibility: a document containing the legacy
marker `<!-- echo-id:N -->` is recognized as already containing id `N`, and
the append of a fragment for `N` performs no insertion. -/
theorem legacy_marker_blocks_append
    (content entry header ds : List Char)
    (hid : extractMarkerId entry = some ds)
    (hleg : legacyForm ds <:+: content) :
    appendToSection content entry header = content := by
  unfold appendToSection
  rw [hid]
  show (if markerPresent ds content then content
    else insertIntoSection content entry header) = _
  have hp : markerPresent ds content := Or.inr (Or.inr hleg)
  rw [if_pos hp]

/-- Witness for `legacy_marker_blocks_append`: a document holding only the
legacy marker for id 9 blocks a compact-marker fragment for id 9. -/
theorem legacy_marker_blocks_append_witness :
    extractMarkerId (lit "- note\n#📼 9") = some (lit "9") ∧
      legacyForm (lit "9") <:+: lit "a <!-- echo-id:9 --> b" ∧
      appendToSection (lit "a <!-- echo-id:9 --> b") (lit "- note\n#📼 9")
          (lit "#### 🧠") =
        lit "a <!-- echo-id:9 --> b" :=
  ⟨by decide, by decide,
    legacy_marker_blocks_append (lit "a <!-- echo-id:9 --> b") (lit "- note\n#📼 9")
      (lit "#### 🧠") (lit "9") (by decide) (by decide)⟩

/-- **C9.** The compact-marker dedup check is plain substring containment:
whenever `#📼 N` or `#📼N` occurs anywhere in the document text — also as a
proper prefix of a longer id's marker — the fragment for id `N` is dropped
with no insertion. -/
theorem compact_dedup_is_containment
    (content entry header ds : List Char)
    (hid : extractMarkerId entry = some ds)
    (h : spacedForm ds <:+: content ∨ tightForm ds <:+: content) :
    appendToSection content entry header = content := by
  unfold appendToSection
  rw [hid]
  show (if markerPresent ds content then content
    else insertIntoSection content entry header) = _
  have hp : markerPresent ds content := by
    rcases h with h | h
    · exact Or.inl h
    · exact Or.inr (Or.inl h)
  rw [if_pos hp]

/-- Witness for `compact_dedup_is_containment`: a document whose only marker
is `#📼 421` silently swallows the fragment for id 42. -/
theorem compact_dedup_is_containment_witness :
    extractMarkerId (lit "- e\n#📼 42") = some (lit "42") ∧
      spacedForm (lit "42") <:+: lit "x #📼 421 y" ∧
      occCount (lit "421") (lit "x #📼 421 y") = 1 ∧
      appendToSection (lit "x #📼 421 y") (lit "- e\n#📼 42") (lit "#### 🧠") =
        lit "x #📼 421 y" :=
  ⟨by decide, by decide, by decide,
    compact_dedup_is_containment (lit "x #📼 421 y") (lit "- e\n#📼 42")
      (lit "#### 🧠") (lit "42") (by decide) (Or.inl (by decide))⟩

/-! ### Daily note path derivation (`DailyNoteManager.getOrCreateDailyNote`) -/

/-- Path derivation of `getOrCreateDailyNote` (part_003 lines 17-24): default
folder on empty setting, trailing `/<year>` stripped when the setting already
ends with the date's year, then `folder/year/dateStr.md`.  Obsidian's
`normalizePath` is modelled as the identity. -/
def dailyNoteFolderBase (dailyNoteFolder : List Char) : List Char :=
  if dailyNoteFolder = [] then lit "Journal/Daily" else dailyNoteFolder

def dailyNoteFolderResolved (dailyNoteFolder dateStr : List Char) : List Char :=
  if ('/' :: dateStr.take 4) <:+ dailyNoteFolderBase dailyNoteFolder then
    (dailyNoteFolderBase dailyNoteFolder).take
      ((dailyNoteFolderBase dailyNoteFolder).length - (dateStr.take 4).length - 1)
  else dailyNoteFolderBase dailyNoteFolder

def dailyNotePath (dailyNoteFolder dateStr : List Char) : List Char :=
  dailyNoteFolderResolved dailyNoteFolder dateStr ++
    '/' :: dateStr.take 4 ++ '/' :: dateStr ++ lit ".md"

/-- **C10.** A folder setting that already carries the date's year as its
last segment resolves to the same path as the setting without it — the year
segment is not doubled — while a folder not ending in the date's year is
used verbatim. -/
theorem daily_note_path_strips_year (f d : List Char) (hf : f ≠ [])
    (hne : ¬ ('/' :: d.take 4) <:+ f) :
    dailyNotePath (f ++ '/' :: d.take 4) d = dailyNotePath f d ∧
      dailyNotePath f d = f ++ '/' :: d.take 4 ++ '/' :: d ++ lit ".md" := by
  have hbase : dailyNoteFolderBase f = f := by
    rw [dailyNoteFolderBase, if_neg hf]
  have hplain : dailyNotePath f d = f ++ '/' :: d.take 4 ++ '/' :: d ++ lit ".md" := by
    rw [dailyNotePath, dailyNoteFolderResolved, hbase, if_neg hne]
  refine ⟨?_, hplain⟩
  rw [hplain]
  have hne2 : f ++ '/' :: d.take 4 ≠ [] := by simp
  have hbase2 : dailyNoteFolderBase (f ++ '/' :: d.take 4) = f ++ '/' :: d.take 4 := by
    rw [dailyNoteFolderBase, if_neg hne2]
  have hsuf : ('/' :: d.take 4) <:+ f ++ '/' :: d.take 4 := ⟨f, rfl⟩
  have hlen : (f ++ '/' :: d.take 4).length - (d.take 4).length - 1 = f.length := by
    simp only [List.length_append, List.length_cons, List.length_take]
    omega
  have htake : (f ++ '/' :: d.take 4).take f.length = f := List.take_left f ('/' :: d.take 4)
  rw [dailyNotePath, dailyNoteFolderResolved, hbase2, if_pos hsuf, hlen, htake]

/-- Witness for `daily_note_path_strips_year`: the setting
`Journal/Daily/2026` and a 2026 date resolve like `Journal/Daily`. -/
theorem daily_note_path_strips_year_witness :
    dailyNotePath (lit "Journal/Daily" ++ '/' :: (lit "2026-01-05").take 4)
        (lit "2026-01-05") =
      dailyNotePath (lit "Journal/Daily") (lit "2026-01-05") ∧
      dailyNotePath (lit "Journal/Daily") (lit "2026-01-05") =
        lit "Journal/Daily/2026/2026-01-05.md" :=
  ⟨(daily_note_path_strips_year (lit "Journal/Daily") (lit "2026-01-05")
      (by decide) (by decide)).1,
    by decide⟩

/-! ### The acknowledgment loop of `SyncEngine.sync` (sync.ts lines 99-120)

Timestamps are ISO-8601 strings compared with the JavaScript `>` operator,
i.e. lexicographically; they are modelled as `List Char` under the
lexicographic linear order.  Only the fields the loop reads are carried. -/

structure Capture where
  id : Nat
  created_at : List Char
deriving DecidableEq

/-- The loop-carried mutable state: `settings.lastSyncTimestamp` (empty
string when never synced) and the `totalSynced` / `totalErrors` counters. -/
structure AckState where
  lastSyncTimestamp : List Char
  synced : Nat
  errors : Nat
deriving DecidableEq

/-- One iteration of the mark-synced loop; `ackOk` tells whether
`api.markSynced(capture.id)` succeeds or throws for this capture. -/
def ackStep (ackOk : Capture → Bool) (st : AckState) (c : Capture) : AckState :=
  if ackOk c then
    { st with
      synced := st.synced + 1,
      lastSyncTimestamp :=
        if st.lastSyncTimestamp = [] ∨ st.lastSyncTimestamp < c.created_at
        then c.created_at else st.lastSyncTimestamp }
  else { st with errors := st.errors + 1 }

/-- The whole `for (const capture of response.captures)` acknowledgment
loop. -/
def ackCaptures (ackOk : Capture → Bool) (caps : List Capture) (st : AckState) :
    AckState :=
  caps.foldl (ackStep ackOk) st

lemma ackUpd_eq_max (t c : List Char) :
    (if t = [] ∨ t < c then c else t) = max t c := by
  by_cases h1 : t = []
  · subst h1
    rw [if_pos (Or.inl rfl)]
    exact (max_eq_right List.nil_le).symm
  · by_cases h2 : t < c
    · rw [if_pos (Or.inr h2)]
      exact (max_eq_right h2.le).symm
    · rw [if_neg (by push_neg; exact ⟨h1, le_of_not_lt h2⟩)]
      exact (max_eq_left (le_of_not_lt h2)).symm

lemma ackCaptures_last (ackOk : Capture → Bool) :
    ∀ (caps : List Capture) (st : AckState),
      (ackCaptures ackOk caps st).lastSyncTimestamp =
        (caps.filter (fun c => ackOk c)).foldl
          (fun t c => max t c.created_at) st.lastSyncTimestamp
  | [], st => rfl
  | c :: caps, st => by
    show (ackCaptures ackOk caps (ackStep ackOk st c)).lastSyncTimestamp = _
    by_cases h : ackOk c
    · rw [List.filter_cons_of_pos (by simpa using h)]
      rw [ackCaptures_last ackOk caps (ackStep ackOk st c)]
      have hstep : (ackStep ackOk st c).lastSyncTimestamp =
          max st.lastSyncTimestamp c.created_at := by
        rw [ackStep, if_pos h]
        exact ackUpd_eq_max _ _
      rw [hstep]
      rfl
    · rw [List.filter_cons_of_neg (by simpa using h)]
      rw [ackCaptures_last ackOk caps (ackStep ackOk st c)]
      have hstep : (ackStep ackOk st c).lastSyncTimestamp = st.lastSyncTimestamp := by
        rw [ackStep, if_neg h]
      rw [hstep]

lemma le_foldl_max : ∀ (ts : List Capture) (t : List Char),
    t ≤ ts.foldl (fun a c => max a c.created_at) t
  | [], t => le_refl t
  | c :: ts, t =>
    le_trans (le_max_left t c.created_at) (le_foldl_max ts (max t c.created_at))

lemma mem_le_foldl_max {c : Capture} :
    ∀ (ts : List Capture) (t : List Char), c ∈ ts →
      c.created_at ≤ ts.foldl (fun a c => max a c.created_at) t
  | [], _, h => absurd h (List.not_mem_nil c)
  | d :: ts, t, h => by
    rcases List.mem_cons.1 h with rfl | h'
    · exact le_trans (le_max_right t c.created_at) (le_foldl_max ts _)
    · exact mem_le_foldl_max ts _ h'

lemma foldl_max_cases : ∀ (ts : List Capture) (t : List Char),
    ts.foldl (fun a c => max a c.created_at) t = t ∨
      ∃ c ∈ ts, ts.foldl (fun a c => max a c.created_at) t = c.created_at
  | [], t => Or.inl rfl
  | c :: ts, t => by
    have hstep : (c :: ts).foldl (fun a c => max a c.created_at) t =
        ts.foldl (fun a c => max a c.created_at) (max t c.created_at) := rfl
    rcases foldl_max_cases ts (max t c.created_at) with h | ⟨d, hd, h⟩
    · rcases max_choice t c.created_at with hm | hm
      · exact Or.inl (by rw [hstep, h, hm])
      · exact Or.inr ⟨c, List.mem_cons_self c ts, by rw [hstep, h, hm]⟩
    · exact Or.inr ⟨d, List.mem_cons_of_mem c hd, by rw [hstep, h]⟩

/-- **C2.** Checkpoint monotonicity of the acknowledgment loop: the final
`lastSyncTimestamp` is the running maximum of the prior checkpoint and the
creation timestamps of exactly the captures whose acknowledgment succeeded;
it never decreases, it bounds every acknowledged timestamp, and a failed
capture's timestamp never contributes. -/
theorem checkpoint_monotone_max_acked (ackOk : Capture → Bool)
    (caps : List Capture) (st : AckState) :
    (ackCaptures ackOk caps st).lastSyncTimestamp =
        (caps.filter (fun c => ackOk c)).foldl
          (fun t c => max t c.created_at) st.lastSyncTimestamp ∧
      st.lastSyncTimestamp ≤ (ackCaptures ackOk caps st).lastSyncTimestamp ∧
      (∀ c ∈ caps, ackOk c = true →
        c.created_at ≤ (ackCaptures ackOk caps st).lastSyncTimestamp) ∧
      ((ackCaptures ackOk caps st).lastSyncTimestamp = st.lastSyncTimestamp ∨
        ∃ c ∈ caps, ackOk c = true ∧
          (ackCaptures ackOk caps st).lastSyncTimestamp = c.created_at) := by
  have hfold := ackCaptures_last ackOk caps st
  refine ⟨hfold, ?_, ?_, ?_⟩
  · rw [hfold]
    exact le_foldl_max _ _
  · intro c hc hok
    rw [hfold]
    exact mem_le_foldl_max _ _ (List.mem_filter.2 ⟨hc, by simpa using hok⟩)
  · rw [hfold]
    rcases foldl_max_cases (caps.filter (fun c => ackOk c)) st.lastSyncTimestamp
      with h | ⟨c, hc, h⟩
    · exact Or.inl h
    · obtain ⟨hcmem, hcok⟩ := List.mem_filter.1 hc
      exact Or.inr ⟨c, hcmem, by simpa using hcok, h⟩

/-- Witness for `checkpoint_monotone_max_acked`: capture 2 (the latest
timestamp) fails to acknowledge, captures 1 and 3 succeed, so the
checkpoint lands on capture 3's timestamp, not capture 2's. -/
theorem checkpoint_monotone_max_acked_witness :
    (ackCaptures (fun c => c.id != 2)
        [⟨1, lit "2025-01-01T10:00:00Z"⟩, ⟨2, lit "2025-01-03T10:00:00Z"⟩,
          ⟨3, lit "2025-01-02T10:00:00Z"⟩] ⟨[], 0, 0⟩).lastSyncTimestamp =
        ([⟨1, lit "2025-01-01T10:00:00Z"⟩, ⟨2, lit "2025-01-03T10:00:00Z"⟩,
          ⟨3, lit "2025-01-02T10:00:00Z"⟩].filter
            (fun c : Capture => c.id != 2)).foldl
          (fun t c => max t c.created_at) [] ∧
      (ackCaptures (fun c => c.id != 2)
        [⟨1, lit "2025-01-01T10:00:00Z"⟩, ⟨2, lit "2025-01-03T10:00:00Z"⟩,
          ⟨3, lit "2025-01-02T10:00:00Z"⟩] ⟨[], 0, 0⟩).lastSyncTimestamp =
        lit "2025-01-02T10:00:00Z" :=
  ⟨(checkpoint_monotone_max_acked (fun c => c.id != 2)
      [⟨1, lit "2025-01-01T10:00:00Z"⟩, ⟨2, lit "2025-01-03T10:00:00Z"⟩,
        ⟨3, lit "2025-01-02T10:00:00Z"⟩] ⟨[], 0, 0⟩).1,
    by decide⟩

/-! ### The orchestration skeleton of `SyncEngine.sync` (sync.ts lines 46-149)

`sync()` is modelled by its control skeleton: `captureStage` stands for the
capture while-loop (whose successful outcome is the `(totalSynced,
totalErrors)` pair it accumulates, and whose thrown error — e.g. a failed
`api.syncCaptures` fetch — is an `Except.error`), `todoStage` for the
`this.todoSync.sync(...)` call.  The `stages` trace records which stage
bodies actually ran. -/

structure SyncResult where
  synced : Nat
  todos : Nat
  errors : Nat
  hasMore : Bool
deriving DecidableEq

structure TodoSyncResult where
  created : Nat
  updated : Nat
  errors : Nat
deriving DecidableEq

inductive StageTag where
  | captureLoop
  | todoStage
deriving DecidableEq

structure OrchOutcome where
  running : Bool
  result : Except Unit SyncResult
  stages : List StageTag

def syncOrchestrate (running : Bool) (captureStage : Except Unit (Nat × Nat))
    (syncTodos : Bool) (todoStage : Except Unit TodoSyncResult) : OrchOutcome :=
  if running then ⟨running, Except.ok ⟨0, 0, 0, false⟩, []⟩
  else
    match captureStage with
    | Except.error e => ⟨false, Except.error e, [StageTag.captureLoop]⟩
    | Except.ok p =>
      if syncTodos then
        match todoStage with
        | Except.ok tr =>
          ⟨false, Except.ok ⟨p.1, tr.created + tr.updated, p.2 + tr.errors, false⟩,
            [StageTag.captureLoop, StageTag.todoStage]⟩
        | Except.error _ =>
          ⟨false, Except.ok ⟨p.1, 0, p.2 + 1, false⟩,
            [StageTag.captureLoop, StageTag.todoStage]⟩
      else ⟨false, Except.ok ⟨p.1, 0, p.2, false⟩, [StageTag.captureLoop]⟩

/-- **C6.** Single-flight and guaranteed release: a call while a sync is in
progress returns the zero result and runs neither stage, and every call that
starts (running flag clear) leaves the flag cleared on exit — also when the
capture stage exits by exception. -/
theorem single_flight_and_release (cap : Except Unit (Nat × Nat)) (st : Bool)
    (todo : Except Unit TodoSyncResult) :
    (syncOrchestrate true cap st todo).result = Except.ok ⟨0, 0, 0, false⟩ ∧
      (syncOrchestrate true cap st todo).stages = [] ∧
      (syncOrchestrate false cap st todo).running = false := by
  refine ⟨rfl, rfl, ?_⟩
  cases cap with
  | error e => rfl
  | ok p =>
    cases st with
    | false => rfl
    | true => cases todo with
      | ok tr => rfl
      | error e => rfl

/-- Witness for `single_flight_and_release` at concrete stage outcomes. -/
theorem single_flight_and_release_witness :
    (syncOrchestrate true (Except.ok (3, 1)) true
        (Except.ok ⟨2, 1, 0⟩)).result = Except.ok ⟨0, 0, 0, false⟩ ∧
      (syncOrchestrate false (Except.error ()) true
        (Except.ok ⟨2, 1, 0⟩)).running = false :=
  ⟨(single_flight_and_release (Except.ok (3, 1)) true (Except.ok ⟨2, 1, 0⟩)).1,
    (single_flight_and_release (Except.error ()) true (Except.ok ⟨2, 1, 0⟩)).2.2⟩

/-- **C4 counterexample.** A thrown error from the capture stage is *not*
caught: the call rejects and no `SyncResult` is returned (and nothing is
added to an error count), refuting the claim that an error from either
stage is caught and the other stage's fields are still returned. -/
theorem capture_stage_error_not_caught :
    (syncOrchestrate false (Except.error ()) true
        (Except.ok ⟨0, 0, 0⟩)).result = Except.error () ∧
      ¬ ∃ r : SyncResult,
        (syncOrchestrate false (Except.error ()) true
          (Except.ok ⟨0, 0, 0⟩)).result = Except.ok r := by
  refine ⟨rfl, ?_⟩
  rintro ⟨r, hr⟩
  simp [syncOrchestrate] at hr

/-- **C4 (amended).** Only the todo-reconciliation stage's thrown error is
caught: it counts as exactly one additional error and the capture stage's
fields are still returned; a thrown error from the capture stage propagates
to the caller (no `SyncResult`), though the running flag is still cleared. -/
theorem stage_error_aggregation (s e : Nat) (todo : Except Unit TodoSyncResult) :
    syncOrchestrate false (Except.ok (s, e)) true (Except.error ()) =
        ⟨false, Except.ok ⟨s, 0, e + 1, false⟩,
          [StageTag.captureLoop, StageTag.todoStage]⟩ ∧
      (syncOrchestrate false (Except.error ()) true todo).result =
        Except.error () ∧
      (syncOrchestrate false (Except.error ()) true todo).running = false :=
  ⟨rfl, rfl, rfl⟩

/-- Witness for `stage_error_aggregation` at concrete counts. -/
theorem stage_error_aggregation_witness :
    syncOrchestrate false (Except.ok (7, 2)) true (Except.error ()) =
        ⟨false, Except.ok ⟨7, 0, 3, false⟩,
          [StageTag.captureLoop, StageTag.todoStage]⟩ ∧
      (syncOrchestrate false (Except.error ()) true
        (Except.ok ⟨0, 0, 0⟩)).result = Except.error () :=
  ⟨(stage_error_aggregation 7 2 (Except.ok ⟨0, 0, 0⟩)).1,
    (stage_error_aggregation 7 2 (Except.ok ⟨0, 0, 0⟩)).2.1⟩

/-! ### The todo write-back (`TodoSync.writeTodosToDaily` and
`DailyNoteManager.replaceTodoSection`) -/

structure Todo where
  id : Nat
  text : List Char
  completed : Bool
  archived : Bool
  position : Int
deriving DecidableEq

/-- Decimal rendering of a `Nat` (the `${t.id}` interpolation), with the
number itself as recursion fuel. -/
def natLitAux : Nat → Nat → List Char
  | 0, _ => []
  | f + 1, n =>
    if n < 10 then [Char.ofNat (48 + n)]
    else natLitAux f (n / 10) ++ [Char.ofNat (48 + n % 10)]

def natLit (n : Nat) : List Char := natLitAux (n + 1) n

/-- One checklist line of the todo section:
`${checkbox} 🎤 ${t.text.trim()} #📼t ${t.id}`. -/
def renderTodoLine (t : Todo) : List Char :=
  (if t.completed then lit "- [x]" else lit "- [ ]") ++ lit " 🎤 " ++
    trimStr t.text ++ lit " #📼t " ++ natLit t.id

/-- `todos.sort((a, b) => a.position - b.position)`: a stable sort by the
position field (ECMAScript sorts are stable). -/
def sortByPosition (ts : List Todo) : List Todo :=
  List.insertionSort (fun a b => a.position ≤ b.position) ts

/-- The section body text written by `writeTodosToDaily`: sorted rendered
lines joined with newlines. -/
def todoEntries (ts : List Todo) : List Char :=
  List.intercalate (lit "\n") ((sortByPosition ts).map renderTodoLine)

/-- `DailyNoteManager.replaceTodoSection` (part_003 lines 123-161) as a
function of the document text. -/
def replaceTodoSection (content header body : List Char) : List Char :=
  match indexOfSub header content with
  | none =>
    match indexOfSub (lit "#### 🤖") content with
    | some r =>
      trimEnd (content.take r) ++ lit "\n\n" ++ header ++ lit "\n\n" ++ body ++
        lit "\n\n" ++ content.drop r
    | none =>
      trimEnd content ++ lit "\n\n" ++ header ++ lit "\n\n" ++ body ++ lit "\n"
  | some i =>
    content.take (i + header.length) ++ lit "\n\n" ++ body ++ lit "\n" ++
      content.drop (sectionEndFrom content (i + header.length))

/-- `TodoSync.writeTodosToDaily` (part_001 lines 193-208) as a function of
today's note text: an empty list returns before any write. -/
def writeTodosToDaily (todos : List Todo) (content header : List Char) : List Char :=
  if todos.length = 0 then content
  else replaceTodoSection content header (todoEntries todos)

/-- The active-todo filter of `TodoSync.sync` step 5 (part_001 line 99). -/
def activeOf (ts : List Todo) : List Todo :=
  ts.filter (fun t => !t.archived && !t.completed)

/-- Steps 5-6 of the reconciliation: filter the re-fetched todo set to
active todos and write them to today's note. -/
def reconcileStep56 (allTodos : List Todo) (content header : List Char) : List Char :=
  writeTodosToDaily (activeOf allTodos) content header

/-- Observer: the text of the section introduced by `header`, up to the next
header boundary (the Section Editor's own boundary rule). -/
def sectionBody (content header : List Char) : Option (List Char) :=
  match indexOfSub header content with
  | none => none
  | some i =>
    some ((content.drop (i + header.length)).take
      (sectionEndFrom content (i + header.length) - (i + header.length)))

lemma digitChar_isDigit {d : Nat} (hd : d < 10) : (Char.ofNat (48 + d)).isDigit := by
  interval_cases d <;> decide

lemma natLitAux_digits : ∀ (f n : Nat), ∀ c ∈ natLitAux f n, c.isDigit
  | 0, n => by simp [natLitAux]
  | f + 1, n => by
    intro c hc
    rw [natLitAux] at hc
    by_cases h : n < 10
    · rw [if_pos h] at hc
      have : c = Char.ofNat (48 + n) := by simpa using hc
      subst this
      exact digitChar_isDigit h
    · rw [if_neg h] at hc
      rcases List.mem_append.1 hc with h1 | h2
      · exact natLitAux_digits f (n / 10) c h1
      · have : c = Char.ofNat (48 + n % 10) := by simpa using h2
        subst this
        exact digitChar_isDigit (Nat.mod_lt n (by norm_num))

lemma nwl_natLit (n : Nat) : '\n' ∉ natLit n :=
  fun h => absurd (natLitAux_digits (n + 1) n _ h) (by decide)

lemma trimStr_subset (l : List Char) : trimStr l ⊆ l := by
  intro c hc
  rw [trimStr] at hc
  have h1 := (trimEnd_pre (l.dropWhile Char.isWhitespace)).subset hc
  exact (List.dropWhile_suffix Char.isWhitespace).subset h1

lemma nwl_render {t : Todo} (ht : '\n' ∉ t.text) : '\n' ∉ renderTodoLine t := by
  intro h
  rw [renderTodoLine] at h
  simp only [List.mem_append] at h
  rcases h with ((((h | h) | h) | h) | h)
  · by_cases hc : t.completed
    · rw [if_pos hc] at h
      exact absurd h (by decide)
    · rw [if_neg hc] at h
      exact absurd h (by decide)
  · exact absurd h (by decide)
  · exact ht (trimStr_subset t.text h)
  · exact absurd h (by decide)
  · exact nwl_natLit t.id h

instance : IsTotal Todo (fun a b => a.position ≤ b.position) :=
  ⟨fun a b => le_total a.position b.position⟩

instance : IsTrans Todo (fun a b => a.position ≤ b.position) :=
  ⟨fun _ _ _ h1 h2 => le_trans h1 h2⟩

/-- **C3 counterexample.** With an empty active-todo set the write-back is
skipped entirely (`if (todos.length === 0) return;`): today's todo section
keeps its stale text instead of being fully replaced. -/
theorem empty_active_set_skips_replace :
    reconcileStep56 [] (lit "# D\n\n#### ✅\n\nstale junk\n\n#### 🤖\n")
        (lit "#### ✅") =
      lit "# D\n\n#### ✅\n\nstale junk\n\n#### 🤖\n" ∧
      sectionBody (lit "# D\n\n#### ✅\n\nstale junk\n\n#### 🤖\n") (lit "#### ✅") =
        some (lit "\n\nstale junk\n") := by
  exact ⟨by decide, by decide⟩

/-- **C3 (amended).** When the active set is nonempty (and the todo header
is present), the section between the header and the next boundary is wholly
replaced by exactly one rendered checklist line per active todo, sorted by
position, each embedding completion state and the `#📼t id` marker; with an
empty active set the write is skipped and prior content remains (see
`empty_active_set_skips_replace`). -/
theorem todo_section_fully_replaced (allTodos : List Todo)
    (content header : List Char) (i : Nat)
    (hidx : indexOfSub header content = some i)
    (hne : activeOf allTodos ≠ [])
    (htext : ∀ t ∈ allTodos, '\n' ∉ t.text) :
    reconcileStep56 allTodos content header =
        content.take (i + header.length) ++ lit "\n\n" ++
          todoEntries (activeOf allTodos) ++ lit "\n" ++
          content.drop (sectionEndFrom content (i + header.length)) ∧
      (sortByPosition (activeOf allTodos)).Perm (activeOf allTodos) ∧
      List.Sorted (fun a b : Todo => a.position ≤ b.position)
        (sortByPosition (activeOf allTodos)) ∧
      (todoEntries (activeOf allTodos)).splitOn '\n' =
        (sortByPosition (activeOf allTodos)).map renderTodoLine ∧
      ∀ t ∈ activeOf allTodos,
        renderTodoLine t ∈ (todoEntries (activeOf allTodos)).splitOn '\n' := by
  have hperm : (sortByPosition (activeOf allTodos)).Perm (activeOf allTodos) :=
    List.perm_insertionSort _ _
  have hsorted : List.Sorted (fun a b : Todo => a.position ≤ b.position)
      (sortByPosition (activeOf allTodos)) :=
    List.sorted_insertionSort _ _
  have hsub : ∀ t ∈ sortByPosition (activeOf allTodos), t ∈ allTodos := by
    intro t ht
    have h1 : t ∈ activeOf allTodos := hperm.mem_iff.1 ht
    exact List.mem_of_mem_filter h1
  have hnwl : ∀ l ∈ (sortByPosition (activeOf allTodos)).map renderTodoLine,
      '\n' ∉ l := by
    intro l hl
    obtain ⟨t, ht, rfl⟩ := List.mem_map.1 hl
    exact nwl_render (htext t (hsub t ht))
  have hmapne : (sortByPosition (activeOf allTodos)).map renderTodoLine ≠ [] := by
    intro hmap
    have hs : sortByPosition (activeOf allTodos) = [] := List.map_eq_nil_iff.1 hmap
    have hlen : (activeOf allTodos).length = 0 := by
      rw [← hperm.length_eq, hs]
      rfl
    exact hne (List.length_eq_zero.1 hlen)
  have hsplit : (todoEntries (activeOf allTodos)).splitOn '\n' =
      (sortByPosition (activeOf allTodos)).map renderTodoLine := by
    rw [todoEntries, lit_n]
    exact List.splitOn_intercalate _ '\n' hnwl hmapne
  refine ⟨?_, hperm, hsorted, hsplit, ?_⟩
  · have hlenne : ¬ (activeOf allTodos).length = 0 := by
      intro h
      exact hne (List.length_eq_zero.1 h)
    rw [reconcileStep56, writeTodosToDaily, if_neg hlenne]
    unfold replaceTodoSection
    rw [hidx]
  · intro t ht
    rw [hsplit]
    exact List.mem_map_of_mem renderTodoLine (hperm.mem_iff.2 ht)

/-- Witness for `todo_section_fully_replaced`: the spec scenario — remote
todo `{id: 5, text: "Deploy", completed: false, position: 1}` against a
todo section holding unrelated stale text; afterwards the section holds
exactly `- [ ] 🎤 Deploy #📼t 5` and the stale text is gone. -/
theorem todo_section_fully_replaced_witness :
    activeOf [⟨5, lit "Deploy", false, false, 1⟩] ≠ [] ∧
      indexOfSub (lit "#### ✅")
        (lit "# D\n\n#### ✅\n\nstale junk\n\n#### 🤖\n") = some 5 ∧
      reconcileStep56 [⟨5, lit "Deploy", false, false, 1⟩]
        (lit "# D\n\n#### ✅\n\nstale junk\n\n#### 🤖\n") (lit "#### ✅") =
        lit "# D\n\n#### ✅\n\n- [ ] 🎤 Deploy #📼t 5\n\n#### 🤖\n" ∧
      (sortByPosition (activeOf [⟨5, lit "Deploy", false, false, 1⟩])).Perm
        (activeOf [⟨5, lit "Deploy", false, false, 1⟩]) :=
  ⟨by decide, by decide, by decide,
    (todo_section_fully_replaced [⟨5, lit "Deploy", false, false, 1⟩]
      (lit "# D\n\n#### ✅\n\nstale junk\n\n#### 🤖\n") (lit "#### ✅") 5
      (by decide) (by decide) (by decide)).2.1⟩

/-! ### Step 4 of `TodoSync.sync` (part_001 lines 57-94)

The Obsidian→remote reconciliation loop, modelled by its remote-visible
effects: the shrinking working map `echoById`, the evolving remote todo
store, and the trace of api calls (`updateTodo` / `createTodo`).  The
in-document marker rewrite performed after `createTodo`
(`addMarkerToLine`) mutates only the vault and is not observed here;
api calls are assumed not to throw (the per-line catch is then dead). -/

/-- The `ObsidianTodo` record produced by `parseTodosFromContent`. -/
structure ObsidianTodo where
  text : List Char
  completed : Bool
  echoId : Option Nat
  line : List Char
  lineIndex : Nat
deriving DecidableEq

inductive TodoApiCall where
  | update (id : Nat) (completed : Bool)
  | create (text : List Char) (newId : Nat)
deriving DecidableEq

/-- JavaScript `Map.get` over the association-list model of `echoById`. -/
def mapGet : List (Nat × Todo) → Nat → Option Todo
  | [], _ => none
  | p :: m, n => if p.1 = n then some p.2 else mapGet m n

/-- JavaScript `Map.set`: replace in place, else append. -/
def mapSet : List (Nat × Todo) → Nat → Todo → List (Nat × Todo)
  | [], k, v => [(k, v)]
  | p :: m, k, v => if p.1 = k then (k, v) :: m else p :: mapSet m k v

/-- JavaScript `Map.delete`. -/
def mapDelete : List (Nat × Todo) → Nat → List (Nat × Todo)
  | [], _ => []
  | p :: m, k => if p.1 = k then mapDelete m k else p :: mapDelete m k

/-- `for (const t of echoTodos) echoById.set(t.id, t)`. -/
def buildById (ts : List Todo) : List (Nat × Todo) :=
  ts.foldl (fun m t => mapSet m t.id t) []

/-- Observer: the remote todo with id `n` (first match). -/
def findRemote : List Todo → Nat → Option Todo
  | [], _ => none
  | t :: r, n => if t.id = n then some t else findRemote r n

/-- Server-side effect of `updateTodo(n, {completed: b})`. -/
def applyUpdate (r : List Todo) (n : Nat) (b : Bool) : List Todo :=
  r.map (fun t => if t.id = n then { t with completed := b } else t)

/-- Server-side record created by `createTodo(text)`. -/
def createdTodo (nid : Nat) (text : List Char) : Todo :=
  ⟨nid, text, false, false, 0⟩

structure ReconState where
  byId : List (Nat × Todo)
  remote : List Todo
  freshIds : List Nat
  calls : List TodoApiCall
  created : Nat
  updated : Nat
deriving DecidableEq

/-- The `else` branch of the loop body: `createTodo` then the line rewrite
(the latter not observed here); `freshIds` supplies the server-assigned
ids. -/
def createLine (st : ReconState) (ot : ObsidianTodo) : ReconState :=
  { st with
    freshIds := st.freshIds.tail,
    remote := st.remote ++ [createdTodo (st.freshIds.headD 0) ot.text],
    calls := st.calls ++ [TodoApiCall.create ot.text (st.freshIds.headD 0)],
    created := st.created + 1 }

/-- One iteration of the inner `for (const ot of todos)` loop (lines
66-87).  `if (ot.echoId)` is JavaScript truthiness: both `null` and `0`
take the create branch. -/
def processLine (st : ReconState) (ot : ObsidianTodo) : ReconState :=
  match ot.echoId with
  | some n =>
    if n ≠ 0 then
      match mapGet st.byId n with
      | some et =>
        if et.completed != ot.completed then
          { st with
            remote := applyUpdate st.remote n ot.completed,
            calls := st.calls ++ [TodoApiCall.update n ot.completed],
            updated := st.updated + 1,
            byId := mapDelete st.byId n }
        else { st with byId := mapDelete st.byId n }
      | none => { st with byId := mapDelete st.byId n }
    else createLine st ot
  | none => createLine st ot

/-- One step of the per-file bookkeeping loop (lines 91-93):
`if (ot.echoId) echoById.delete(ot.echoId)`. -/
def cleanupStep (m : List (Nat × Todo)) (ot : ObsidianTodo) : List (Nat × Todo) :=
  match ot.echoId with
  | some k => if k ≠ 0 then mapDelete m k else m
  | none => m

/-- The per-file bookkeeping loop: re-delete the file's echo ids from the
working map. -/
def cleanupFold (m : List (Nat × Todo)) (ls : List ObsidianTodo) :
    List (Nat × Todo) :=
  ls.foldl cleanupStep m

/-- One iteration of the outer `for (const [filePath, todos] of noteTodos)`
loop: the line loop followed by the bookkeeping loop. -/
def processFile (st : ReconState) (fileTodos : List ObsidianTodo) : ReconState :=
  let st1 := fileTodos.foldl processLine st
  { st1 with byId := cleanupFold st1.byId fileTodos }

def initialRecon (remote : List Todo) (fresh : List Nat) : ReconState :=
  ⟨buildById remote, remote, fresh, [], 0, 0⟩

/-- The whole step-4 pass over the scanned files, in file-then-line order. -/
def todoPass (files : List (List ObsidianTodo)) (remote : List Todo)
    (fresh : List Nat) : ReconState :=
  files.foldl processFile (initialRecon remote fresh)

def isUpdFor (n : Nat) : TodoApiCall → Bool
  | TodoApiCall.update m _ => m == n
  | TodoApiCall.create _ _ => false

/-- The `updateTodo` calls issued for id `n`, in order. -/
def updCallsFor (n : Nat) (calls : List TodoApiCall) : List TodoApiCall :=
  calls.filter (isUpdFor n)

example :
    (todoPass [[⟨lit "Ship", true, some 7, lit "- [x] 🎤 Ship #📼t 7", 3⟩,
        ⟨lit "Ship", false, some 7, lit "- [ ] 🎤 Ship #📼t 7", 9⟩]]
      [⟨7, lit "Ship", false, false, 1⟩] []).calls =
    [TodoApiCall.update 7 true] := by decide

/-! ### Invariants of the step-4 pass around one id `n` -/

lemma mapGet_delete (m : List (Nat × Todo)) (k n : Nat) :
    mapGet (mapDelete m k) n = if k = n then none else mapGet m n := by
  induction m with
  | nil =>
    by_cases h : k = n <;> simp [mapDelete, mapGet, h]
  | cons p m ih =>
    rw [mapDelete]
    by_cases hpk : p.1 = k
    · rw [if_pos hpk, ih]
      by_cases hkn : k = n
      · rw [if_pos hkn, if_pos hkn]
      · rw [if_neg hkn, if_neg hkn, mapGet,
          if_neg (fun h => hkn (hpk.symm.trans h))]
    · rw [if_neg hpk]
      show (if p.1 = n then some p.2 else mapGet (mapDelete m k) n) = _
      by_cases hpn : p.1 = n
      · rw [if_pos hpn, if_neg (fun h => hpk (hpn.trans h.symm)), mapGet, if_pos hpn]
      · rw [if_neg hpn, ih]
        by_cases hkn : k = n
        · rw [if_pos hkn, if_pos hkn]
        · rw [if_neg hkn, if_neg hkn, mapGet, if_neg hpn]

lemma findRemote_applyUpdate_ne {r : List Todo} {k n : Nat} (hkn : k ≠ n)
    (b : Bool) : findRemote (applyUpdate r k b) n = findRemote r n := by
  induction r with
  | nil => rfl
  | cons t r ih =>
    show findRemote ((if t.id = k then { t with completed := b } else t) ::
      applyUpdate r k b) n = _
    by_cases htk : t.id = k
    · rw [if_pos htk, findRemote]
      rw [show ({ t with completed := b } : Todo).id = t.id from rfl]
      rw [if_neg (htk ▸ hkn), findRemote, if_neg (htk ▸ hkn)]
      exact ih
    · rw [if_neg htk, findRemote]
      by_cases htn : t.id = n
      · rw [if_pos htn, findRemote, if_pos htn]
      · rw [if_neg htn, findRemote, if_neg htn]
        exact ih

lemma findRemote_applyUpdate_eq {r : List Todo} {n : Nat} {rn : Todo}
    (h : findRemote r n = some rn) (b : Bool) :
    findRemote (applyUpdate r n b) n = some { rn with completed := b } := by
  induction r with
  | nil => simp [findRemote] at h
  | cons t r ih =>
    show findRemote ((if t.id = n then { t with completed := b } else t) ::
      applyUpdate r n b) n = _
    by_cases htn : t.id = n
    · rw [findRemote, if_pos htn] at h
      obtain rfl := Option.some.inj h
      rw [if_pos htn, findRemote,
        if_pos (show ({ t with completed := b } : Todo).id = n from htn)]
    · rw [findRemote, if_neg htn] at h
      rw [if_neg htn, findRemote, if_neg htn]
      exact ih h

lemma findRemote_append_left {r : List Todo} {n : Nat} {x : Todo}
    (h : findRemote r n = some x) (s : List Todo) :
    findRemote (r ++ s) n = some x := by
  induction r with
  | nil => simp [findRemote] at h
  | cons t r ih =>
    rw [findRemote] at h
    by_cases htn : t.id = n
    · rw [if_pos htn] at h
      rw [List.cons_append, findRemote, if_pos htn]
      exact h
    · rw [if_neg htn] at h
      rw [List.cons_append, findRemote, if_neg htn]
      exact ih h

lemma updCallsFor_append (n : Nat) (c1 c2 : List TodoApiCall) :
    updCallsFor n (c1 ++ c2) = updCallsFor n c1 ++ updCallsFor n c2 := by
  rw [updCallsFor, updCallsFor, updCallsFor, List.filter_append]

lemma updCallsFor_update_ne {k n : Nat} (hkn : k ≠ n) (b : Bool) :
    updCallsFor n [TodoApiCall.update k b] = [] := by
  have hb : (k == n) = false := by simpa using hkn
  simp [updCallsFor, isUpdFor, List.filter, hb]

lemma updCallsFor_update_self (n : Nat) (b : Bool) :
    updCallsFor n [TodoApiCall.update n b] = [TodoApiCall.update n b] := by
  simp [updCallsFor, isUpdFor, List.filter]

lemma updCallsFor_create (n : Nat) (t : List Char) (i : Nat) :
    updCallsFor n [TodoApiCall.create t i] = [] := rfl

/-- Invariant before the first line carrying id `n` is processed: the
working map still holds `n ↦ rn`, the remote record for `n` is untouched,
and no update call for `n` has been issued. -/
def UntouchedInv (n : Nat) (rn : Todo) (st : ReconState) : Prop :=
  mapGet st.byId n = some rn ∧ findRemote st.remote n = some rn ∧
    updCallsFor n st.calls = []

/-- Invariant after the first line carrying id `n` was processed: `n` is
gone from the working map, the remote record for `n` carries completion
state `bc`, and the update calls for `n` are exactly `us`. -/
def DoneInv (n : Nat) (bc : Bool) (us : List TodoApiCall) (st : ReconState) : Prop :=
  mapGet st.byId n = none ∧
    (∃ t, findRemote st.remote n = some t ∧ t.completed = bc) ∧
    updCallsFor n st.calls = us

lemma createLine_untouched {n : Nat} {rn : Todo} {st : ReconState}
    (h : UntouchedInv n rn st) (ot : ObsidianTodo) :
    UntouchedInv n rn (createLine st ot) := by
  obtain ⟨h1, h2, h3⟩ := h
  refine ⟨h1, findRemote_append_left h2 _, ?_⟩
  rw [createLine]
  show updCallsFor n (st.calls ++ [TodoApiCall.create ot.text _]) = []
  rw [updCallsFor_append, h3, updCallsFor_create]
  rfl

lemma processLine_untouched {n : Nat} {rn : Todo} {st : ReconState}
    {ot : ObsidianTodo} (hot : ot.echoId ≠ some n)
    (h : UntouchedInv n rn st) : UntouchedInv n rn (processLine st ot) := by
  obtain ⟨h1, h2, h3⟩ := h
  cases hech : ot.echoId with
  | none =>
    simp only [processLine, hech]
    exact createLine_untouched ⟨h1, h2, h3⟩ ot
  | some k =>
    have hkn : k ≠ n := fun hk => hot (hk ▸ hech)
    simp only [processLine, hech]
    by_cases hk0 : k ≠ 0
    · rw [if_pos hk0]
      cases hget : mapGet st.byId k with
      | some et =>
        simp only [hget]
        by_cases hdiff : et.completed != ot.completed
        · rw [if_pos hdiff]
          refine ⟨?_, ?_, ?_⟩
          · show mapGet (mapDelete st.byId k) n = some rn
            rw [mapGet_delete, if_neg hkn]
            exact h1
          · show findRemote (applyUpdate st.remote k ot.completed) n = some rn
            rw [findRemote_applyUpdate_ne hkn]
            exact h2
          · show updCallsFor n (st.calls ++ [TodoApiCall.update k ot.completed]) = []
            rw [updCallsFor_append, h3, updCallsFor_update_ne hkn]
            rfl
        · rw [if_neg hdiff]
          refine ⟨?_, h2, h3⟩
          show mapGet (mapDelete st.byId k) n = some rn
          rw [mapGet_delete, if_neg hkn]
          exact h1
      | none =>
        simp only [hget]
        refine ⟨?_, h2, h3⟩
        show mapGet (mapDelete st.byId k) n = some rn
        rw [mapGet_delete, if_neg hkn]
        exact h1
    · rw [if_neg hk0]
      exact createLine_untouched ⟨h1, h2, h3⟩ ot

lemma createLine_done {n : Nat} {bc : Bool} {us : List TodoApiCall}
    {st : ReconState} (h : DoneInv n bc us st) (ot : ObsidianTodo) :
    DoneInv n bc us (createLine st ot) := by
  obtain ⟨h1, ⟨t, ht, htc⟩, h3⟩ := h
  refine ⟨h1, ⟨t, findRemote_append_left ht _, htc⟩, ?_⟩
  rw [createLine]
  show updCallsFor n (st.calls ++ [TodoApiCall.create ot.text _]) = us
  rw [updCallsFor_append, h3, updCallsFor_create]
  simp

lemma processLine_done {n : Nat} {bc : Bool} {us : List TodoApiCall}
    {st : ReconState} (h : DoneInv n bc us st) (ot : ObsidianTodo) :
    DoneInv n bc us (processLine st ot) := by
  obtain ⟨h1, ⟨t, ht, htc⟩, h3⟩ := h
  cases hech : ot.echoId with
  | none =>
    simp only [processLine, hech]
    exact createLine_done ⟨h1, ⟨t, ht, htc⟩, h3⟩ ot
  | some k =>
    simp only [processLine, hech]
    by_cases hk0 : k ≠ 0
    · rw [if_pos hk0]
      by_cases hkn : k = n
      · subst hkn
        simp only [h1]
        refine ⟨?_, ⟨t, ht, htc⟩, h3⟩
        show mapGet (mapDelete st.byId k) k = none
        rw [mapGet_delete, if_pos rfl]
      · cases hget : mapGet st.byId k with
        | some et =>
          simp only [hget]
          by_cases hdiff : et.completed != ot.completed
          · rw [if_pos hdiff]
            refine ⟨?_, ?_, ?_⟩
            · show mapGet (mapDelete st.byId k) n = none
              rw [mapGet_delete, if_neg hkn]
              exact h1
            · exact ⟨t, by rw [findRemote_applyUpdate_ne hkn]; exact ht, htc⟩
            · show updCallsFor n (st.calls ++ [TodoApiCall.update k ot.completed]) = us
              rw [updCallsFor_append, h3, updCallsFor_update_ne hkn]
              simp
          · rw [if_neg hdiff]
            refine ⟨?_, ⟨t, ht, htc⟩, h3⟩
            show mapGet (mapDelete st.byId k) n = none
            rw [mapGet_delete, if_neg hkn]
            exact h1
        | none =>
          simp only [hget]
          refine ⟨?_, ⟨t, ht, htc⟩, h3⟩
          show mapGet (mapDelete st.byId k) n = none
          rw [mapGet_delete, if_neg hkn]
          exact h1
    · rw [if_neg hk0]
      exact createLine_done ⟨h1, ⟨t, ht, htc⟩, h3⟩ ot

/-- Processing the first line that carries id `n`: the invariant flips from
untouched to done, the pushed state being the line's local state and the
update call issued exactly when the states differ. -/
lemma processLine_match {n : Nat} {rn : Todo} {st : ReconState}
    {ot : ObsidianTodo} (hn : n ≠ 0) (hot : ot.echoId = some n)
    (h : UntouchedInv n rn st) :
    DoneInv n ot.completed
      (if rn.completed != ot.completed then [TodoApiCall.update n ot.completed]
        else []) (processLine st ot) := by
  obtain ⟨h1, h2, h3⟩ := h
  simp only [processLine, hot]
  rw [if_pos hn]
  simp only [h1]
  by_cases hdiff : rn.completed != ot.completed
  · rw [if_pos hdiff, if_pos hdiff]
    refine ⟨?_, ?_, ?_⟩
    · show mapGet (mapDelete st.byId n) n = none
      rw [mapGet_delete, if_pos rfl]
    · exact ⟨{ rn with completed := ot.completed },
        findRemote_applyUpdate_eq h2 ot.completed, rfl⟩
    · show updCallsFor n (st.calls ++ [TodoApiCall.update n ot.completed]) = _
      rw [updCallsFor_append, h3, updCallsFor_update_self]
      rfl
  · rw [if_neg hdiff, if_neg hdiff]
    refine ⟨?_, ?_, h3⟩
    · show mapGet (mapDelete st.byId n) n = none
      rw [mapGet_delete, if_pos rfl]
    · exact ⟨rn, h2, by simpa using hdiff⟩

lemma cleanupStep_get_ne {n : Nat} {m : List (Nat × Todo)} {ot : ObsidianTodo}
    (hot : ot.echoId ≠ some n) : mapGet (cleanupStep m ot) n = mapGet m n := by
  cases hech : ot.echoId with
  | none => simp only [cleanupStep, hech]
  | some k =>
    have hkn : k ≠ n := fun hk => hot (hk ▸ hech)
    simp only [cleanupStep, hech]
    by_cases hk0 : k ≠ 0
    · rw [if_pos hk0, mapGet_delete, if_neg hkn]
    · rw [if_neg hk0]

lemma cleanupStep_get_none {n : Nat} {m : List (Nat × Todo)} (ot : ObsidianTodo)
    (h : mapGet m n = none) : mapGet (cleanupStep m ot) n = none := by
  cases hech : ot.echoId with
  | none => simp only [cleanupStep, hech]; exact h
  | some k =>
    simp only [cleanupStep, hech]
    by_cases hk0 : k ≠ 0
    · rw [if_pos hk0, mapGet_delete]
      by_cases hkn : k = n
      · rw [if_pos hkn]
      · rw [if_neg hkn]
        exact h
    · rw [if_neg hk0]
      exact h

lemma cleanupFold_get_ne {n : Nat} :
    ∀ (ls : List ObsidianTodo) (m : List (Nat × Todo)),
      (∀ ot ∈ ls, ot.echoId ≠ some n) →
      mapGet (cleanupFold m ls) n = mapGet m n
  | [], _, _ => rfl
  | ot :: ls, m, hall => by
    show mapGet (cleanupFold (cleanupStep m ot) ls) n = mapGet m n
    rw [cleanupFold_get_ne ls _ (fun o ho => hall o (List.mem_cons_of_mem _ ho)),
      cleanupStep_get_ne (hall ot (List.mem_cons_self ot ls))]

lemma cleanupFold_get_none {n : Nat} :
    ∀ (ls : List ObsidianTodo) (m : List (Nat × Todo)),
      mapGet m n = none → mapGet (cleanupFold m ls) n = none
  | [], _, h => h
  | ot :: ls, m, h => by
    show mapGet (cleanupFold (cleanupStep m ot) ls) n = none
    exact cleanupFold_get_none ls _ (cleanupStep_get_none ot h)

lemma foldl_lines_untouched {n : Nat} {rn : Todo} :
    ∀ (ls : List ObsidianTodo) (st : ReconState),
      (∀ ot ∈ ls, ot.echoId ≠ some n) → UntouchedInv n rn st →
      UntouchedInv n rn (ls.foldl processLine st)
  | [], _, _, h => h
  | ot :: ls, st, hall, h =>
    foldl_lines_untouched ls _ (fun o ho => hall o (List.mem_cons_of_mem _ ho))
      (processLine_untouched (hall ot (List.mem_cons_self ot ls)) h)

lemma foldl_lines_done {n : Nat} {bc : Bool} {us : List TodoApiCall} :
    ∀ (ls : List ObsidianTodo) (st : ReconState),
      DoneInv n bc us st → DoneInv n bc us (ls.foldl processLine st)
  | [], _, h => h
  | ot :: ls, st, h => foldl_lines_done ls _ (processLine_done h ot)

lemma processFile_untouched {n : Nat} {rn : Todo} {st : ReconState}
    {f : List ObsidianTodo} (hall : ∀ ot ∈ f, ot.echoId ≠ some n)
    (h : UntouchedInv n rn st) : UntouchedInv n rn (processFile st f) := by
  obtain ⟨h1, h2, h3⟩ := foldl_lines_untouched f st hall h
  refine ⟨?_, h2, h3⟩
  show mapGet (cleanupFold (f.foldl processLine st).byId f) n = some rn
  rw [cleanupFold_get_ne f _ hall]
  exact h1

lemma processFile_done {n : Nat} {bc : Bool} {us : List TodoApiCall}
    {st : ReconState} (f : List ObsidianTodo)
    (h : DoneInv n bc us st) : DoneInv n bc us (processFile st f) := by
  obtain ⟨h1, h2, h3⟩ := foldl_lines_done f st h
  refine ⟨?_, h2, h3⟩
  show mapGet (cleanupFold (f.foldl processLine st).byId f) n = none
  exact cleanupFold_get_none f _ h1

lemma processFile_first {n : Nat} {rn : Todo} {st : ReconState}
    {pre post : List ObsidianTodo} {L : ObsidianTodo}
    (hn : n ≠ 0) (hL : L.echoId = some n)
    (hpre : ∀ ot ∈ pre, ot.echoId ≠ some n)
    (h : UntouchedInv n rn st) :
    DoneInv n L.completed
      (if rn.completed != L.completed then [TodoApiCall.update n L.completed]
        else []) (processFile st (pre ++ L :: post)) := by
  have hfold : (pre ++ L :: post).foldl processLine st =
      post.foldl processLine (processLine (pre.foldl processLine st) L) := by
    rw [List.foldl_append]
    rfl
  have hdone := foldl_lines_done post _
    (processLine_match hn hL (foldl_lines_untouched pre st hpre h))
  rw [← hfold] at hdone
  obtain ⟨h1, h2, h3⟩ := hdone
  refine ⟨?_, h2, h3⟩
  show mapGet (cleanupFold ((pre ++ L :: post).foldl processLine st).byId
    (pre ++ L :: post)) n = none
  exact cleanupFold_get_none _ _ h1

lemma foldl_files_untouched {n : Nat} {rn : Todo} :
    ∀ (fs : List (List ObsidianTodo)) (st : ReconState),
      (∀ f ∈ fs, ∀ ot ∈ f, ot.echoId ≠ some n) → UntouchedInv n rn st →
      UntouchedInv n rn (fs.foldl processFile st)
  | [], _, _, h => h
  | f :: fs, st, hall, h =>
    foldl_files_untouched fs _ (fun g hg => hall g (List.mem_cons_of_mem _ hg))
      (processFile_untouched (hall f (List.mem_cons_self f fs)) h)

lemma foldl_files_done {n : Nat} {bc : Bool} {us : List TodoApiCall} :
    ∀ (fs : List (List ObsidianTodo)) (st : ReconState),
      DoneInv n bc us st → DoneInv n bc us (fs.foldl processFile st)
  | [], _, h => h
  | f :: fs, st, h => foldl_files_done fs _ (processFile_done f h)

/-- The behaviour of the whole step-4 pass at the *first* scanned line that
carries id `n` (file-then-line order): the remote todo ends up carrying
that line's completion state, one update call is issued iff the states
differ, and any later line carrying `n` (a duplicate) contributes
nothing. -/
lemma todoPass_first_occurrence
    (fs1 : List (List ObsidianTodo)) (pre : List ObsidianTodo)
    (L : ObsidianTodo) (post : List ObsidianTodo)
    (fs2 : List (List ObsidianTodo)) (remote : List Todo) (fresh : List Nat)
    (n : Nat) (rn : Todo)
    (hn : n ≠ 0) (hL : L.echoId = some n)
    (hfs1 : ∀ f ∈ fs1, ∀ ot ∈ f, ot.echoId ≠ some n)
    (hpre : ∀ ot ∈ pre, ot.echoId ≠ some n)
    (hmap : mapGet (buildById remote) n = some rn)
    (hfind : findRemote remote n = some rn) :
    DoneInv n L.completed
      (if rn.completed != L.completed then [TodoApiCall.update n L.completed]
        else [])
      (todoPass (fs1 ++ (pre ++ L :: post) :: fs2) remote fresh) := by
  have hinit : UntouchedInv n rn (initialRecon remote fresh) := ⟨hmap, hfind, rfl⟩
  show DoneInv n L.completed _
    ((fs1 ++ (pre ++ L :: post) :: fs2).foldl processFile (initialRecon remote fresh))
  rw [List.foldl_append]
  show DoneInv n L.completed _
    (fs2.foldl processFile
      (processFile (fs1.foldl processFile (initialRecon remote fresh))
        (pre ++ L :: post)))
  exact foldl_files_done fs2 _
    (processFile_first hn hL hpre (foldl_files_untouched fs1 _ hfs1 hinit))

/-- **C5 counterexample.** Two scanned lines carry id 7: first line checked,
second line unchecked; the remote todo 7 is unchecked.  Last-write-wins
would leave todo 7 unchecked (the later line's state); the code pushes the
*first* line's state: the only call is `updateTodo(7, true)` and afterwards
todo 7 is checked. -/
theorem duplicate_id_not_last_write_wins :
    (todoPass [[⟨lit "Ship", true, some 7, lit "- [x] 🎤 Ship #📼t 7", 3⟩,
        ⟨lit "Ship", false, some 7, lit "- [ ] 🎤 Ship #📼t 7", 9⟩]]
      [⟨7, lit "Ship", false, false, 1⟩] []).calls =
      [TodoApiCall.update 7 true] ∧
    findRemote (todoPass [[⟨lit "Ship", true, some 7, lit "- [x] 🎤 Ship #📼t 7", 3⟩,
        ⟨lit "Ship", false, some 7, lit "- [ ] 🎤 Ship #📼t 7", 9⟩]]
      [⟨7, lit "Ship", false, false, 1⟩] []).remote 7 =
      some ⟨7, lit "Ship", true, false, 1⟩ ∧
    TodoApiCall.update 7 false ∉
      (todoPass [[⟨lit "Ship", true, some 7, lit "- [x] 🎤 Ship #📼t 7", 3⟩,
        ⟨lit "Ship", false, some 7, lit "- [ ] 🎤 Ship #📼t 7", 9⟩]]
      [⟨7, lit "Ship", false, false, 1⟩] []).calls := by
  exact ⟨by decide, by decide, by decide⟩

/-- **C5 (amended).** Duplicate-id behaviour is first-write-wins in scan
(file-then-line) order: the first-scanned line carrying id `n` pushes its
state (exactly one `updateTodo(n, ·)` call, issued iff its state differs
from the remote), and every later-scanned duplicate finds `n` already
removed from the working set and is skipped, contributing no call — the
lines after the first (`post`, `fs2`) are unconstrained. -/
theorem duplicate_id_first_write_wins
    (fs1 : List (List ObsidianTodo)) (pre : List ObsidianTodo)
    (L : ObsidianTodo) (post : List ObsidianTodo)
    (fs2 : List (List ObsidianTodo)) (remote : List Todo) (fresh : List Nat)
    (n : Nat) (rn : Todo)
    (hn : n ≠ 0) (hL : L.echoId = some n)
    (hfs1 : ∀ f ∈ fs1, ∀ ot ∈ f, ot.echoId ≠ some n)
    (hpre : ∀ ot ∈ pre, ot.echoId ≠ some n)
    (hmap : mapGet (buildById remote) n = some rn)
    (hfind : findRemote remote n = some rn) :
    (∃ t, findRemote
        (todoPass (fs1 ++ (pre ++ L :: post) :: fs2) remote fresh).remote n =
        some t ∧ t.completed = L.completed) ∧
      updCallsFor n
        (todoPass (fs1 ++ (pre ++ L :: post) :: fs2) remote fresh).calls =
        (if rn.completed != L.completed then [TodoApiCall.update n L.completed]
          else []) := by
  obtain ⟨-, h2, h3⟩ :=
    todoPass_first_occurrence fs1 pre L post fs2 remote fresh n rn hn hL hfs1
      hpre hmap hfind
  exact ⟨h2, h3⟩

/-- Witness for `duplicate_id_first_write_wins`: the concrete duplicate
scenario of `duplicate_id_not_last_write_wins`. -/
theorem duplicate_id_first_write_wins_witness :
    (∃ t, findRemote
        (todoPass [[⟨lit "Ship", true, some 7, lit "- [x] 🎤 Ship #📼t 7", 3⟩,
            ⟨lit "Ship", false, some 7, lit "- [ ] 🎤 Ship #📼t 7", 9⟩]]
          [⟨7, lit "Ship", false, false, 1⟩] []).remote 7 =
        some t ∧ t.completed = true) ∧
      updCallsFor 7
        (todoPass [[⟨lit "Ship", true, some 7, lit "- [x] 🎤 Ship #📼t 7", 3⟩,
            ⟨lit "Ship", false, some 7, lit "- [ ] 🎤 Ship #📼t 7", 9⟩]]
          [⟨7, lit "Ship", false, false, 1⟩] []).calls =
        [TodoApiCall.update 7 true] :=
  duplicate_id_first_write_wins []
    [] ⟨lit "Ship", true, some 7, lit "- [x] 🎤 Ship #📼t 7", 3⟩
    [⟨lit "Ship", false, some 7, lit "- [ ] 🎤 Ship #📼t 7", 9⟩] []
    [⟨7, lit "Ship", false, false, 1⟩] [] 7 ⟨7, lit "Ship", false, false, 1⟩
    (by decide) (by decide) (by decide) (by decide) (by decide) (by decide)

/-- **C7.** Local-wins precedence for a uniquely-embedded id: the scanned
line carrying id `n` (no other scanned line carries `n`) pushes its local
completion state to the remote exactly when the states differ —
`updateTodo(n, local)` is called — and when they agree no update call for
`n` is made; either way the remote todo carries the local state
afterwards. -/
theorem local_wins_unique_id
    (fs1 : List (List ObsidianTodo)) (pre : List ObsidianTodo)
    (L : ObsidianTodo) (post : List ObsidianTodo)
    (fs2 : List (List ObsidianTodo)) (remote : List Todo) (fresh : List Nat)
    (n : Nat) (rn : Todo)
    (hn : n ≠ 0) (hL : L.echoId = some n)
    (hfs1 : ∀ f ∈ fs1, ∀ ot ∈ f, ot.echoId ≠ some n)
    (hpre : ∀ ot ∈ pre, ot.echoId ≠ some n)
    (hpost : ∀ ot ∈ post, ot.echoId ≠ some n)
    (hfs2 : ∀ f ∈ fs2, ∀ ot ∈ f, ot.echoId ≠ some n)
    (hmap : mapGet (buildById remote) n = some rn)
    (hfind : findRemote remote n = some rn) :
    (∃ t, findRemote
        (todoPass (fs1 ++ (pre ++ L :: post) :: fs2) remote fresh).remote n =
        some t ∧ t.completed = L.completed) ∧
      (rn.completed ≠ L.completed →
        updCallsFor n
          (todoPass (fs1 ++ (pre ++ L :: post) :: fs2) remote fresh).calls =
          [TodoApiCall.update n L.completed]) ∧
      (rn.completed = L.completed →
        updCallsFor n
          (todoPass (fs1 ++ (pre ++ L :: post) :: fs2) remote fresh).calls = []) := by
  obtain ⟨-, h2, h3⟩ :=
    todoPass_first_occurrence fs1 pre L post fs2 remote fresh n rn hn hL hfs1
      hpre hmap hfind
  refine ⟨h2, ?_, ?_⟩
  · intro hd
    rw [h3, if_pos (bne_iff_ne.2 hd)]
  · intro he
    rw [h3, if_neg]
    simp [he]

/-- Witness for `local_wins_unique_id`: local line for id 9 unchecked,
remote todo 9 checked; reconciliation pushes `updateTodo(9, false)` and the
remote todo ends up unchecked. -/
theorem local_wins_unique_id_witness :
    (∃ t, findRemote
        (todoPass [[⟨lit "Go", false, some 9, lit "- [ ] 🎤 Go #📼t 9", 2⟩]]
          [⟨9, lit "Go", true, false, 2⟩] []).remote 9 =
        some t ∧ t.completed = false) ∧
      updCallsFor 9
        (todoPass [[⟨lit "Go", false, some 9, lit "- [ ] 🎤 Go #📼t 9", 2⟩]]
          [⟨9, lit "Go", true, false, 2⟩] []).calls =
        [TodoApiCall.update 9 false] :=
  ⟨(local_wins_unique_id [] [] ⟨lit "Go", false, some 9, lit "- [ ] 🎤 Go #📼t 9", 2⟩
      [] [] [⟨9, lit "Go", true, false, 2⟩] [] 9 ⟨9, lit "Go", true, false, 2⟩
      (by decide) (by decide) (by decide) (by decide) (by decide) (by decide)
      (by decide) (by decide)).1,
    (local_wins_unique_id [] [] ⟨lit "Go", false, some 9, lit "- [ ] 🎤 Go #📼t 9", 2⟩
      [] [] [⟨9, lit "Go", true, false, 2⟩] [] 9 ⟨9, lit "Go", true, false, 2⟩
      (by decide) (by decide) (by decide) (by decide) (by decide) (by decide)
      (by decide) (by decide)).2.1 (by decide)⟩

end Echo
